import Mathlib

/-!
Verification development for the gemini-experiments coding agent.

The TypeScript sources embedded here:
- `src/agent/tools.ts`   — path confinement (`resolvePath`) and the seven
  tool executors (`readFile`, `writeFile`, `headFile`, `tailFile`,
  `listDir`, `runCommand`, `editFile`, dispatcher `executeTool`).
- `src/storage/settings.ts` — the permission store (`isAllowed`,
  `setPermission`).
- `src/agent/index.ts` — the agentic loop (`agenticLoop`), compaction
  (`summarizeToolCalls`), and the rate-limit retry wrapper
  (`generateContentWithRetry`).
- `src/types.ts` — shared constants and the `ToolResult` shape.

External collaborators (the completion API, the human permission prompt,
the shell) are modelled as oracles supplied as explicit arguments.
JavaScript strings are modelled as Lean `String`; operations whose JS
semantics differ from Lean's (includes / startsWith / slice / replace)
are modelled explicitly on the underlying character lists.
-/

namespace GeminiAgent

/-! ## Constants (src/types.ts) -/

def MAX_HOPS : Nat := 25
def COMMAND_TIMEOUT_MS : Nat := 60000
def API_TIMEOUT_MS : Nat := 600000
def MAX_CONTEXT_CHARS : Nat := 100000

/-! ## JS string primitives

`jsStartsWith`, `jsIncludes`, `jsSliceList` model
`String.prototype.startsWith`, `String.prototype.includes` and
`Array.prototype.slice` (character-for-character on the code units). -/

def jsStartsWith (s pre : String) : Bool :=
  pre.data.isPrefixOf s.data

/-- JS `String.prototype.split` with a single-character separator
(both uses in the source split on `'/'`-free one-char strings:
`content.split('\n')`; path segmentation uses `'/'`). Splitting the
empty string yields `[""]`, as in JS. -/
def splitOnChar (sep : Char) : List Char → List (List Char)
  | [] => [[]]
  | c :: rest =>
      let r := splitOnChar sep rest
      if c = sep then [] :: r
      else
        match r with
        | h :: t => (c :: h) :: t
        | [] => [[c]]

def jsSplit (s : String) (sep : Char) : List String :=
  (splitOnChar sep s.data).map String.mk

/-- Index of the first occurrence of `pat` in `s`, if any
(JS `indexOf` / the match position used by `includes` and `replace`). -/
def firstMatch (s pat : List Char) : Option Nat :=
  if pat.isPrefixOf s then some 0
  else
    match s with
    | [] => none
    | _ :: rest => (firstMatch rest pat).map (· + 1)

def jsIncludes (s sub : String) : Bool :=
  (firstMatch s.data sub.data).isSome

/-- JS `Array.prototype.slice(start, stop)`: negative indices count from
the end, both ends are clamped to `[0, length]`. -/
def jsSliceList {α : Type} (xs : List α) (start : Int) (stop : Option Int) : List α :=
  let len : Int := xs.length
  let s : Int := if start < 0 then max (len + start) 0 else min start len
  let e : Int := match stop with
    | none => len
    | some v => if v < 0 then max (len + v) 0 else min v len
  (xs.drop s.toNat).take (e - s).toNat

/-- JS `String.prototype.slice(0, n)` for `n ≥ 0` (used for the
`oldString.slice(0, 50)` error preview in `editFile`). -/
def jsSliceStr (s : String) (n : Nat) : String :=
  String.mk (s.data.take n)

/-- Join a list of strings with a separator (JS `Array.prototype.join`). -/
def joinWith (sep : String) : List String → String
  | [] => ""
  | [s] => s
  | s :: rest => s ++ sep ++ joinWith sep rest

/-! ## Path model (tools.ts `resolvePath`)

POSIX paths are modelled as their `/`-separated segments; an absolute
path is represented by the list of segments below the filesystem root.
`normStep` is one step of path normalisation (`path.resolve` semantics:
`""` and `"."` vanish, `".."` pops, `".."` above the root is dropped). -/

def splitPath (s : String) : List String := jsSplit s '/'

def pathIsAbsolute (s : String) : Bool := jsStartsWith s "/"

def normStep (acc : List String) (seg : String) : List String :=
  if seg = "" ∨ seg = "." then acc
  else if seg = ".." then acc.dropLast
  else acc ++ [seg]

def normAbs (segs : List String) : List String := segs.foldl normStep []

/-- Model of `path.resolve(projectRoot, p)` with `root` the already-normalised
segments of the absolute project root. -/
def resolveAbs (root : List String) (p : String) : List String :=
  if pathIsAbsolute p then normAbs (splitPath p)
  else (splitPath p).foldl normStep root

/-- Length of the longest common segment run (used by `path.relative`). -/
def commonPrefixLen : List String → List String → Nat
  | a :: as, b :: bs => if a = b then commonPrefixLen as bs + 1 else 0
  | _, _ => 0

/-- Model of `path.relative(src, dst)` for absolute normalised `src`, `dst`. -/
def relSegs (src dst : List String) : List String :=
  let c := commonPrefixLen src dst
  List.replicate (src.length - c) ".." ++ dst.drop c

/-- The check `rel.startsWith('..') || path.isAbsolute(rel)` from
`resolvePath`. -/
def pathEscapes (src dst : List String) : Bool :=
  let rel := joinWith "/" (relSegs src dst)
  jsStartsWith rel ".." || pathIsAbsolute rel

/-- Model of `resolvePath` from `createToolExecutor`: resolve against the project
root and throw (`Except.error`) if the relative path escapes. -/
def resolvePath (root : List String) (p : String) : Except String (List String) :=
  let resolved := resolveAbs root p
  if pathEscapes root resolved then Except.error "Path traversal not allowed"
  else Except.ok resolved

/-! ## Filesystem model

A snapshot of the directory tree the executor operates on: every node is
a file with contents or a directory with named entries (in `readdir`
order). -/

inductive FsEntry : Type where
  | file (content : String)
  | dir (entries : List (String × FsEntry))

def findEntry : List (String × FsEntry) → String → Option FsEntry
  | [], _ => none
  | (n, e) :: rest, seg => if n = seg then some e else findEntry rest seg

def updateEntry : List (String × FsEntry) → String → FsEntry → List (String × FsEntry)
  | [], seg, e => [(seg, e)]
  | (n, e') :: rest, seg, e =>
      if n = seg then (seg, e) :: rest else (n, e') :: updateEntry rest seg e

/-- Walk the tree along a (normalised, absolute) segment path. -/
def lookupFs : FsEntry → List String → Option FsEntry
  | e, [] => some e
  | .file _, _ :: _ => none
  | .dir entries, seg :: rest =>
      match findEntry entries seg with
      | some e => lookupFs e rest
      | none => none

/-- Model of `fs.mkdirSync(dirname, {recursive:true})` followed by
`fs.writeFileSync(path, content)`: create missing parent directories and
store the file; `none` models the thrown `EISDIR`/`ENOTDIR` when a
directory sits at the file path or a file blocks a parent component
(in which case nothing is mutated, matching Node's behaviour). -/
def setFile : FsEntry → List String → String → Option FsEntry
  | _, [], _ => none
  | .file _, _ :: _, _ => none
  | .dir entries, [seg], c =>
      match findEntry entries seg with
      | some (.dir _) => none
      | _ => some (.dir (updateEntry entries seg (.file c)))
  | .dir entries, seg :: seg2 :: rest, c =>
      let sub := match findEntry entries seg with
        | some e => e
        | none => FsEntry.dir []
      match setFile sub (seg2 :: rest) c with
      | some sub' => some (.dir (updateEntry entries seg sub'))
      | none => none

/-! ## Tool results and arguments (types.ts / tools.ts) -/

/-- Model of `ToolResult` from `src/types.ts`: both fields optional in the
TypeScript interface; the claims concern which combinations occur. -/
structure ToolResult where
  output : Option String := none
  error : Option String := none
deriving Repr, DecidableEq

/-- The argument record a tool call carries (`args.path`,
`args.content`, `args.lines`, `args.recursive`, `args.command`,
`args.old_string`, `args.new_string`). `lines := none` models an absent
`lines` argument (`Number(undefined)` is `NaN`). -/
structure ToolArgs where
  path : String := ""
  content : String := ""
  lines : Option Int := none
  recursive : Bool := false
  command : String := ""
  old_string : String := ""
  new_string : String := ""
deriving Repr, DecidableEq

/-- Model of `Number(args.lines) || 100`: an absent argument (`NaN`) and the
value `0` (both falsy) fall back to 100. -/
def linesOrDefault : Option Int → Int
  | none => 100
  | some v => if v = 0 then 100 else v

/-! ## The tool executors (tools.ts) -/

def readFile (fs : FsEntry) (root : List String) (args : ToolArgs) : ToolResult :=
  match resolvePath root args.path with
  | .error m => { error := some ("Error: " ++ m) }
  | .ok p =>
    match lookupFs fs p with
    | none => { error := some ("File not found: " ++ args.path) }
    | some (.file c) => { output := some c }
    | some (.dir _) =>
        { error := some "Error: EISDIR: illegal operation on a directory, read" }

def writeFile (fs : FsEntry) (root : List String) (args : ToolArgs) :
    ToolResult × FsEntry :=
  match resolvePath root args.path with
  | .error m => ({ error := some ("Error: " ++ m) }, fs)
  | .ok p =>
    match setFile fs p args.content with
    | some fs' => ({ output := some ("File written: " ++ args.path) }, fs')
    | none => ({ error := some "Error: EISDIR: illegal operation on a directory, write" }, fs)

def headFile (fs : FsEntry) (root : List String) (args : ToolArgs) : ToolResult :=
  match resolvePath root args.path with
  | .error m => { error := some ("Error: " ++ m) }
  | .ok p =>
    let n := linesOrDefault args.lines
    match lookupFs fs p with
    | none => { error := some ("File not found: " ++ args.path) }
    | some (.dir _) =>
        { error := some "Error: EISDIR: illegal operation on a directory, read" }
    | some (.file content) =>
        let fileLines := jsSliceList (jsSplit content '\n') 0 (some n)
        { output := some (joinWith "\n" fileLines) }

def tailFile (fs : FsEntry) (root : List String) (args : ToolArgs) : ToolResult :=
  match resolvePath root args.path with
  | .error m => { error := some ("Error: " ++ m) }
  | .ok p =>
    let n := linesOrDefault args.lines
    match lookupFs fs p with
    | none => { error := some ("File not found: " ++ args.path) }
    | some (.dir _) =>
        { error := some "Error: EISDIR: illegal operation on a directory, read" }
    | some (.file content) =>
        let fileLines := jsSliceList (jsSplit content '\n') (-n) none
        { output := some (joinWith "\n" fileLines) }

/-- Model of `listRecursive` from `listDir`: directory entries get a trailing
`/`; in recursive mode subdirectories are expanded depth-first, eagerly,
right after their own entry. -/
def listRecEntries (entries : List (String × FsEntry)) (recursive : Bool)
    (pre : String) : List String :=
  match entries with
  | [] => []
  | (name, .file _) :: rest => (pre ++ name) :: listRecEntries rest recursive pre
  | (name, .dir sub) :: rest =>
      ((pre ++ name ++ "/") ::
        (if recursive then listRecEntries sub recursive (pre ++ name ++ "/") else []))
      ++ listRecEntries rest recursive pre

def listDir (fs : FsEntry) (root : List String) (args : ToolArgs) : ToolResult :=
  match resolvePath root args.path with
  | .error m => { error := some ("Error: " ++ m) }
  | .ok p =>
    match lookupFs fs p with
    | none => { error := some ("Directory not found: " ++ args.path) }
    | some (.file _) =>
        { error := some "Error: ENOTDIR: not a directory, scandir" }
    | some (.dir entries) =>
        let items := listRecEntries entries args.recursive ""
        let out := joinWith "\n" items
        { output := some (if out = "" then "(empty directory)" else out) }

/-- Outcome of one `execSync` invocation (the shell is an external
collaborator; its effect on the directory tree is outside this model). -/
inductive ExecOutcome : Type where
  | success (stdout : String)
  | failure (stdout stderr message : String)
deriving Repr, DecidableEq

def runCommand (outcome : ExecOutcome) : ToolResult :=
  match outcome with
  | .success out => { output := some (if out = "" then "(no output)" else out) }
  | .failure out stderrText msg =>
      if out = "" ∧ stderrText = "" then { error := some ("Command failed: " ++ msg) }
      else
        { error := some ("Command failed\nstdout:\n" ++ out ++ "\nstderr:\n" ++ stderrText) }

/-! ### editFile and JS `String.prototype.replace` -/

/-- Model of `GetSubstitution` for a string search value: the replacement string
is expanded left to right, `$$` → `$`, `$&` → the matched string,
`$`+backquote → the text before the match, `$'` → the text after the
match; any other `$` is literal. -/
def getSubstitution (matched before after : List Char) : List Char → List Char
  | [] => []
  | c :: r =>
    if c = '$' then
      match r with
      | [] => ['$']
      | d :: r2 =>
        if d = '$' then '$' :: getSubstitution matched before after r2
        else if d = '&' then matched ++ getSubstitution matched before after r2
        else if d = '\x60' then before ++ getSubstitution matched before after r2
        else if d = '\x27' then after ++ getSubstitution matched before after r2
        else '$' :: d :: getSubstitution matched before after r2
    else c :: getSubstitution matched before after r

/-- JS `content.replace(oldString, newString)` with a string pattern:
replace the first occurrence, expanding `$`-patterns in the
replacement. -/
def jsReplaceFirst (content old new : String) : String :=
  match firstMatch content.data old.data with
  | none => content
  | some i =>
      String.mk (content.data.take i
        ++ getSubstitution old.data (content.data.take i)
            (content.data.drop (i + old.data.length)) new.data
        ++ content.data.drop (i + old.data.length))

/-- Modelled from the spec: "replaces the first occurrence and writes
back" — literal first-occurrence replacement of the old string by the
new string, with no expansion of the replacement text. Used only to
compare the spec's reading of `edit_file` with the code's
`String.prototype.replace` semantics. -/
def specReplaceFirst (content old new : String) : String :=
  match firstMatch content.data old.data with
  | none => content
  | some i =>
      String.mk (content.data.take i ++ new.data
        ++ content.data.drop (i + old.data.length))

def editFile (fs : FsEntry) (root : List String) (args : ToolArgs) :
    ToolResult × FsEntry :=
  match resolvePath root args.path with
  | .error m => ({ error := some ("Error: " ++ m) }, fs)
  | .ok p =>
    match lookupFs fs p with
    | none => ({ error := some ("File not found: " ++ args.path) }, fs)
    | some (.dir _) =>
        ({ error := some "Error: EISDIR: illegal operation on a directory, read" }, fs)
    | some (.file content) =>
        if jsIncludes content args.old_string = false then
          ({ error := some ("String not found in file: \"" ++ jsSliceStr args.old_string 50 ++ "...\"") }, fs)
        else
          let newContent := jsReplaceFirst content args.old_string args.new_string
          match setFile fs p newContent with
          | some fs' => ({ output := some ("File edited: " ++ args.path) }, fs')
          | none => ({ error := some "Error: EISDIR: illegal operation on a directory, write" }, fs)

/-- Model of `executeTool` from `createToolExecutor`: dispatch on the tool name;
unknown names produce an error result, never a crash. -/
def executeTool (fs : FsEntry) (root : List String) (outcome : ExecOutcome)
    (name : String) (args : ToolArgs) : ToolResult × FsEntry :=
  if name = "read_file" then (readFile fs root args, fs)
  else if name = "write_file" then writeFile fs root args
  else if name = "head_file" then (headFile fs root args, fs)
  else if name = "tail_file" then (tailFile fs root args, fs)
  else if name = "list_dir" then (listDir fs root args, fs)
  else if name = "run_command" then (runCommand outcome, fs)
  else if name = "edit_file" then editFile fs root args
  else ({ error := some ("Unknown tool: " ++ name) }, fs)

/-! ## Conversation model (genai `Content` as used by the agent)

A `Turn` is one `Content`: a role and a list of parts; a part carries at
most one of a text payload, a function call, or a function response. -/

structure FunctionCall where
  name : Option String := none
  args : ToolArgs := {}
deriving Repr, DecidableEq

/-- The `response` object attached to a `functionResponse` part: the
loop builds either `{ error: … }` or `{ result: … }` (where the result
field can be absent, mirroring `result.output` being `undefined`). -/
inductive RespPayload : Type where
  | errorPayload (e : String)
  | resultPayload (r : Option String)
deriving Repr, DecidableEq

structure FunctionResponse where
  name : String
  response : RespPayload
deriving Repr, DecidableEq

structure Part where
  text : Option String := none
  functionCall : Option FunctionCall := none
  functionResponse : Option FunctionResponse := none
deriving Repr, DecidableEq

structure Turn where
  role : String
  parts : List Part
deriving Repr, DecidableEq

/-- Model of `(msg.parts ?? []).some(p => p.functionCall || p.functionResponse)`:
the classification used by `summarizeToolCalls` to find tool turns. -/
def hasToolCall (t : Turn) : Bool :=
  t.parts.any fun p => p.functionCall.isSome || p.functionResponse.isSome

/-- A concrete rendering standing in for `JSON.stringify` of a part's
function-call / function-response payload; only its length feeds the
context accountant and only its text feeds the summarisation prompt, and
no claim proved here depends on the exact rendering. -/
def renderArgs (a : ToolArgs) : String :=
  "\x7b\x22path\x22:\x22" ++ a.path ++ "\x22,\x22content\x22:\x22" ++ a.content
    ++ "\x22,\x22command\x22:\x22" ++ a.command ++ "\x22,\x22old_string\x22:\x22"
    ++ a.old_string ++ "\x22,\x22new_string\x22:\x22" ++ a.new_string ++ "\x22\x7d"

def renderFC (fc : FunctionCall) : String :=
  "\x7b\x22name\x22:\x22" ++ fc.name.getD "" ++ "\x22,\x22args\x22:" ++ renderArgs fc.args ++ "\x7d"

def renderFR (fr : FunctionResponse) : String :=
  "\x7b\x22name\x22:\x22" ++ fr.name ++ "\x22,\x22response\x22:"
    ++ (match fr.response with
        | .errorPayload e => "\x7b\x22error\x22:\x22" ++ e ++ "\x22\x7d"
        | .resultPayload r => "\x7b\x22result\x22:\x22" ++ r.getD "" ++ "\x22\x7d")
    ++ "\x7d"

def renderPart (p : Part) : String :=
  (p.text.getD "") ++ (match p.functionCall with
    | some fc => renderFC fc
    | none => "")
  ++ (match p.functionResponse with
    | some fr => renderFR fr
    | none => "")

def renderTurn (t : Turn) : String :=
  "\x7b\x22role\x22:\x22" ++ t.role ++ "\x22,\x22parts\x22:"
    ++ joinWith "," (t.parts.map renderPart) ++ "\x7d"

/-- Model of `calculateContentSize`: sum of text lengths plus serialized lengths
of function-call / function-response payloads over all parts. -/
def partSize (p : Part) : Nat :=
  (match p.text with | some t => t.length | none => 0)
  + (match p.functionCall with | some fc => (renderFC fc).length | none => 0)
  + (match p.functionResponse with | some fr => (renderFR fr).length | none => 0)

def calculateContentSize (contents : List Turn) : Nat :=
  (contents.map fun t => ((t.parts.map partSize).foldl (· + ·) 0)).foldl (· + ·) 0

/-! ## Compaction (`Agent.summarizeToolCalls`) -/

/-- The synthetic plain turn spliced in by compaction;
`respText` is the text of the summarisation response
(`summaryResponse.text ?? 'Tool calls were performed.'`). -/
def summaryTurn (respText : Option String) : Turn :=
  let summaryText :=
    "[Previous tool calls summary: " ++ respText.getD "Tool calls were performed." ++ "]"
  { role := "user", parts := [{ text := some summaryText }] }

/-- The rebuild loop of `summarizeToolCalls`, over the index-annotated
conversation: tool turns (members of `toolCallIndices`) are skipped, and
the summary turn is inserted before the first kept turn whose index
exceeds the last tool index (`lastIdx`); if no such turn follows, the
summary is pushed at the end. -/
def spliceSummary (lastIdx : Nat) (st : Turn) :
    List (Nat × Turn) → Bool → List Turn
  | [], added => if added then [] else [st]
  | (i, t) :: rest, added =>
      if hasToolCall t then spliceSummary lastIdx st rest added
      else if !added && decide (lastIdx < i) then
        st :: t :: spliceSummary lastIdx st rest true
      else t :: spliceSummary lastIdx st rest added

/-- Indices of the tool turns (`toolCallIndices`). -/
def toolIdxList (contents : List Turn) : List Nat :=
  ((contents.enum.filter fun q => hasToolCall q.2).map Prod.fst)

/-- Model of `toolCallIndices[toolCallIndices.length - 1]` (only read when the
list is non-empty). -/
def lastToolIdx (contents : List Turn) : Nat :=
  (toolIdxList contents).getLast?.getD 0

def toolTurnCount (contents : List Turn) : Nat :=
  (contents.filter fun t => hasToolCall t).length

/-- Model of `Agent.summarizeToolCalls`, with the summarisation response supplied
as `respText` (the boundary call happens only in the `≥ 4` branch). -/
def summarizeToolCalls (contents : List Turn) (respText : Option String) : List Turn :=
  if toolTurnCount contents < 4 then contents
  else spliceSummary (lastToolIdx contents) (summaryTurn respText) contents.enum false

/-! ## Permission store (`storage/settings.ts`) -/

inductive PermMode : Type where
  | ask
  | allow
deriving Repr, DecidableEq

def lookupPerm : List (String × PermMode) → String → Option PermMode
  | [], _ => none
  | (k', m) :: rest, k => if k' = k then some m else lookupPerm rest k

/-- Model of `SettingsManager.isAllowed`: `perm?.mode === 'allow'`; an absent
record is not `allow`. -/
def isAllowed (settings : List (String × PermMode)) (tool : String) : Bool :=
  match lookupPerm settings tool with
  | some .allow => true
  | _ => false

/-- Model of `SettingsManager.setPermission` (persistence is the store's
concern; the in-memory record is what the gate consults). -/
def setPermission : List (String × PermMode) → String → PermMode →
    List (String × PermMode)
  | [], k, m => [(k, m)]
  | (k', m') :: rest, k, m =>
      if k' = k then (k, m) :: rest else (k', m') :: setPermission rest k m

/-- Model of `TOOL_PERMISSIONS` from tools.ts. -/
def TOOL_PERMISSIONS : List (String × String) :=
  [("read_file", "read_file"), ("write_file", "write_file"),
   ("head_file", "read_file"), ("tail_file", "read_file"),
   ("list_dir", "list_dir"), ("run_command", "run_command"),
   ("edit_file", "write_file")]

def lookupStr : List (String × String) → String → Option String
  | [], _ => none
  | (k', v) :: rest, k => if k' = k then some v else lookupStr rest k

/-- Model of `TOOL_PERMISSIONS[toolName] ?? toolName`. -/
def permKeyOf (toolName : String) : String :=
  (lookupStr TOOL_PERMISSIONS toolName).getD toolName

/-- Model of `getToolDescription` from tools.ts. -/
def getToolDescription (name : String) (args : ToolArgs) : String :=
  if name = "read_file" then "Read file: " ++ args.path
  else if name = "write_file" then "Write file: " ++ args.path
  else if name = "head_file" then
    "Read first " ++ toString (linesOrDefault args.lines) ++ " lines of: " ++ args.path
  else if name = "tail_file" then
    "Read last " ++ toString (linesOrDefault args.lines) ++ " lines of: " ++ args.path
  else if name = "list_dir" then
    "List directory: " ++ args.path ++ (if args.recursive then " (recursive)" else "")
  else if name = "run_command" then "Run command: " ++ args.command
  else if name = "edit_file" then "Edit file: " ++ args.path
  else "Unknown tool: " ++ name

/-! ## The agentic loop (`Agent.agenticLoop`) -/

structure PermissionResponse where
  granted : Bool
  alwaysAllow : Bool
deriving Repr, DecidableEq

/-- A successful completion-boundary response: optional text, a possibly
empty batch of function calls, and the raw model turn
(`candidates[0].content`) to append to history. -/
structure ModelResponse where
  text : Option String := none
  functionCalls : List FunctionCall := []
  content : Option Turn := none
deriving Repr, DecidableEq

/-- The external collaborators, as oracles indexed by how many times
each has been consulted: `gen i` is the i-th successful main-loop
completion response, `sumResp j` the text of the j-th summarisation
response, `prompt k` the human's k-th permission decision, `exec m` the
outcome of the m-th executor invocation's shell call. -/
structure Oracles where
  gen : Nat → ModelResponse
  sumResp : Nat → Option String
  prompt : Nat → PermissionResponse
  exec : Nat → ExecOutcome

structure LoopState where
  fs : FsEntry
  settings : List (String × PermMode)
  history : List Turn
  current : List Turn
  genCalls : Nat := 0
  sumCalls : Nat := 0
  prompts : Nat := 0
  execs : Nat := 0

/-- What one dispatch did: which capability class was consulted, whether
the decision callback ran, whether the executor ran, and the result turn
appended to the conversation. -/
structure DispatchInfo where
  key : String
  description : String
  prompted : Bool
  executed : Bool
  appended : Turn
deriving Repr, DecidableEq

/-- The synthetic denial result appended when permission is refused. -/
def denialTurn (toolName : String) : Turn :=
  let fr : FunctionResponse :=
    { name := toolName, response := .errorPayload "Permission denied by user" }
  { role := "user", parts := [{ functionResponse := some fr }] }

/-- The result turn appended after executing a tool:
`result.error ? { error: result.error } : { result: result.output }`
(JS truthiness: an empty error string selects the result branch). -/
def toolResponseTurn (toolName : String) (result : ToolResult) : Turn :=
  let payload : RespPayload :=
    match result.error with
    | some e => if e = "" then .resultPayload result.output else .errorPayload e
    | none => .resultPayload result.output
  let fr : FunctionResponse := { name := toolName, response := payload }
  { role := "user", parts := [{ functionResponse := some fr }] }

/-- The execution tail of one dispatch (the code after the permission
gate has granted): run the executor, append the result turn. -/
def dispatchExec (root : List String) (o : Oracles) (s : LoopState)
    (toolName : String) (args : ToolArgs) (key description : String)
    (prompted : Bool) : LoopState × DispatchInfo :=
  let result := (executeTool s.fs root (o.exec s.execs) toolName args).1
  let fs' := (executeTool s.fs root (o.exec s.execs) toolName args).2
  let turn := toolResponseTurn toolName result
  ({ s with fs := fs', execs := s.execs + 1,
            history := s.history ++ [turn], current := s.current ++ [turn] },
   { key := key, description := description, prompted := prompted,
     executed := true, appended := turn })

/-- One iteration of the `for (const fc of funcCalls)` dispatch body:
permission gate, optional prompt and ask→allow transition, then either
execution or the synthetic denial. -/
def dispatchOne (root : List String) (o : Oracles) (s : LoopState)
    (fc : FunctionCall) : LoopState × DispatchInfo :=
  let toolName := fc.name.getD "unknown"
  let args := fc.args
  let key := permKeyOf toolName
  let description := getToolDescription toolName args
  if isAllowed s.settings key then
    dispatchExec root o s toolName args key description false
  else
    let resp := o.prompt s.prompts
    let s1 := { s with prompts := s.prompts + 1 }
    let s2 := if resp.granted && resp.alwaysAllow then
        { s1 with settings := setPermission s1.settings key PermMode.allow }
      else s1
    if resp.granted then dispatchExec root o s2 toolName args key description true
    else
      let turn := denialTurn toolName
      ({ s2 with history := s2.history ++ [turn], current := s2.current ++ [turn] },
       { key := key, description := description, prompted := true,
         executed := false, appended := turn })

/-- The dispatch loop over one response's batch of function calls,
strictly in order, with the per-call trace. -/
def dispatchAll (root : List String) (o : Oracles) (s : LoopState) :
    List FunctionCall → LoopState × List DispatchInfo
  | [] => (s, [])
  | fc :: rest =>
      let one := dispatchOne root o s fc
      let more := dispatchAll root o one.1 rest
      (more.1, one.2 :: more.2)

/-- The context check at the top of each loop iteration: if the
serialized size exceeds `MAX_CONTEXT_CHARS`, compact and mirror the
result into the session store (`setCurrentSessionMessages`); the
summarisation boundary call happens only when at least 4 tool turns
exist. -/
def contextStep (o : Oracles) (s : LoopState) : LoopState :=
  if MAX_CONTEXT_CHARS < calculateContentSize s.current then
    let fired := ¬ toolTurnCount s.current < 4
    let compacted := summarizeToolCalls s.current (o.sumResp s.sumCalls)
    { s with current := compacted, history := compacted,
             sumCalls := s.sumCalls + (if fired then 1 else 0) }
  else s

/-- Model of `if (modelContent) { history.addMessage(modelContent); … }`. -/
def appendModelContent (s : LoopState) (resp : ModelResponse) : LoopState :=
  match resp.content with
  | some mc => { s with history := s.history ++ [mc], current := s.current ++ [mc] }
  | none => s

/-- Model of `Agent.agenticLoop`, fuel-indexed: fuel `MAX_HOPS - hops` is the
number of `while (hops < MAX_HOPS)` iterations left; fuel 0 is loop exit
with the exhaustion message. Each iteration: context check and possible
compaction, one completion call, then either the final answer or a
dispatch batch. -/
def agenticLoopFuel (root : List String) (o : Oracles) :
    Nat → LoopState → String × LoopState
  | 0, s => ("Maximum iterations reached. Please try a more specific request.", s)
  | fuel + 1, s =>
      let s1 := contextStep o s
      let response := o.gen s1.genCalls
      let s2 := { s1 with genCalls := s1.genCalls + 1 }
      if response.functionCalls.isEmpty then
        (response.text.getD "No response from agent.", s2)
      else
        let s3 := appendModelContent s2 response
        let s4 := (dispatchAll root o s3 response.functionCalls).1
        agenticLoopFuel root o fuel s4

def agenticLoop (root : List String) (o : Oracles) (s : LoopState) :
    String × LoopState :=
  agenticLoopFuel root o MAX_HOPS s

/-! ## Rate-limit retry (`generateContentWithRetry`) -/

/-- The error value thrown by the completion client: an optional HTTP
status, the `error.error.code` field, and a message. -/
structure ApiError where
  status : Option Nat := none
  code : Option Nat := none
  message : String := ""
deriving Repr, DecidableEq

inductive CallOutcome : Type where
  | ok (resp : ModelResponse)
  | raised (e : ApiError)
deriving Repr, DecidableEq

/-- The recognition pattern:
`error?.status === 429 || message.includes('429') ||
 errorObj.code === 429 || message.includes('RESOURCE_EXHAUSTED')`. -/
def isRateLimit (e : ApiError) : Bool :=
  e.status == some 429 || jsIncludes e.message "429"
    || e.code == some 429 || jsIncludes e.message "RESOURCE_EXHAUSTED"

/-- The `for (let attempt = 0; …)` body of `generateContentWithRetry`:
`calls i` is the outcome of the i-th actual API call; the return value
records the result, the number of calls made, and the list of backoff
sleeps (ms) performed. After the retries run out one final, unguarded
call is made. -/
def retryAux (calls : Nat → CallOutcome) (attempt : Nat) :
    Nat → Except ApiError ModelResponse × Nat × List Nat
  | 0 =>
      (match calls attempt with
       | .ok r => (.ok r, 1, [])
       | .raised e => (.error e, 1, []))
  | n + 1 =>
      match calls attempt with
      | .ok r => (.ok r, 1, [])
      | .raised e =>
          if isRateLimit e then
            let (res, c, sl) := retryAux calls (attempt + 1) n
            (res, c + 1, 60000 :: sl)
          else (.error e, 1, [])

/-- Model of `generateContentWithRetry` with its default `maxRetries = 3`. -/
def generateContentWithRetry (calls : Nat → CallOutcome) :
    Except ApiError ModelResponse × Nat × List Nat :=
  retryAux calls 0 3

/-! # Theorems -/

/-! ## Path confinement (C1) -/

theorem commonPrefixLen_le (src dst : List String) :
    commonPrefixLen src dst ≤ src.length := by
  induction src generalizing dst with
  | nil => cases dst <;> simp [commonPrefixLen]
  | cons a as ih =>
    cases dst with
    | nil => simp [commonPrefixLen]
    | cons b bs =>
      by_cases h : a = b <;> simp [commonPrefixLen, h]
      exact ih bs

theorem isPrefixOf_of_commonPrefixLen (src dst : List String)
    (h : commonPrefixLen src dst = src.length) : src.isPrefixOf dst = true := by
  induction src generalizing dst with
  | nil => simp [List.isPrefixOf]
  | cons a as ih =>
    cases dst with
    | nil => simp [commonPrefixLen] at h
    | cons b bs =>
      by_cases hab : a = b
      · subst hab
        simp [commonPrefixLen] at h
        simp [List.isPrefixOf, ih bs h]
      · simp [commonPrefixLen, hab] at h

/-- If the resolved path is not below the project root, `path.relative`
begins with a `..` segment, so `resolvePath`'s escape check fires. -/
theorem pathEscapes_of_not_under (src dst : List String)
    (h : src.isPrefixOf dst = false) : pathEscapes src dst = true := by
  have hle := commonPrefixLen_le src dst
  have hlt : commonPrefixLen src dst < src.length := by
    rcases Nat.lt_or_ge (commonPrefixLen src dst) src.length with hl | hg
    · exact hl
    · have heq : commonPrefixLen src dst = src.length := le_antisymm hle hg
      rw [isPrefixOf_of_commonPrefixLen src dst heq] at h
      cases h
  obtain ⟨k, hk⟩ : ∃ k, src.length - commonPrefixLen src dst = k + 1 :=
    ⟨src.length - commonPrefixLen src dst - 1, by omega⟩
  have hrel : relSegs src dst
      = ".." :: (List.replicate k ".." ++ dst.drop (commonPrefixLen src dst)) := by
    simp only [relSegs, hk, List.replicate_succ, List.cons_append]
  unfold pathEscapes
  rw [hrel]
  cases hrest : List.replicate k ".." ++ dst.drop (commonPrefixLen src dst) with
  | nil => simp [joinWith, jsStartsWith, List.isPrefixOf]
  | cons x xs =>
    have : joinWith "/" (".." :: x :: xs) = ".." ++ "/" ++ joinWith "/" (x :: xs) := rfl
    rw [this]
    simp only [jsStartsWith, String.data_append, Bool.or_eq_true]
    left
    simp [List.isPrefixOf, show (".." : String).data = ['.', '.'] from rfl,
      show ("/" : String).data = ['/'] from rfl]

theorem resolvePath_escape (root : List String) (p : String)
    (h : root.isPrefixOf (resolveAbs root p) = false) :
    resolvePath root p = Except.error "Path traversal not allowed" := by
  simp [resolvePath, pathEscapes_of_not_under root (resolveAbs root p) h]

/-- C1: for every path argument whose resolution against the confined
project root lies outside that root, each of read_file, write_file,
head_file, tail_file, list_dir and edit_file returns an error result
(it does not throw) and leaves the filesystem unchanged. -/
theorem path_escape_rejected (fs : FsEntry) (root : List String)
    (outcome : ExecOutcome) (args : ToolArgs)
    (h : root.isPrefixOf (resolveAbs root args.path) = false) :
    (∀ name ∈ ["read_file", "write_file", "head_file", "tail_file",
               "list_dir", "edit_file"],
      executeTool fs root outcome name args
        = ({ output := none, error := some "Error: Path traversal not allowed" }, fs)) := by
  have hres := resolvePath_escape root args.path h
  intro name hname
  simp only [List.mem_cons, List.not_mem_nil, or_false] at hname
  rcases hname with rfl | rfl | rfl | rfl | rfl | rfl <;>
    simp [executeTool, readFile, writeFile, headFile, tailFile, listDir,
      editFile, hres]

theorem path_escape_rejected_witness :
    (["home", "u", "proj"] : List String).isPrefixOf
        (resolveAbs ["home", "u", "proj"] "../secret") = false
    ∧ executeTool (.dir [("home", .dir [("u", .dir [("proj", .dir [("a.txt", .file "hi")])])])])
        ["home", "u", "proj"] (.success "") "write_file"
        { path := "../secret", content := "boom" }
        = ({ output := none, error := some "Error: Path traversal not allowed" },
           .dir [("home", .dir [("u", .dir [("proj", .dir [("a.txt", .file "hi")])])])]) := by
  refine ⟨by decide, ?_⟩
  exact path_escape_rejected
    (.dir [("home", .dir [("u", .dir [("proj", .dir [("a.txt", .file "hi")])])])])
    ["home", "u", "proj"] (.success "") { path := "../secret", content := "boom" }
    (by decide) "write_file" (by simp)

/-! ## Shape of tool results (C9) -/

/-- The data-model invariant claimed for `ToolResult`: exactly one of
the `output` / `error` fields is present. -/
def exactlyOne (r : ToolResult) : Prop :=
  (r.output.isSome ∧ r.error = none) ∨ (r.output = none ∧ r.error.isSome)

theorem exactlyOne_readFile (fs : FsEntry) (root : List String) (args : ToolArgs) :
    exactlyOne (readFile fs root args) := by
  unfold exactlyOne readFile
  split <;> (try split) <;> simp

theorem exactlyOne_writeFile (fs : FsEntry) (root : List String) (args : ToolArgs) :
    exactlyOne (writeFile fs root args).1 := by
  unfold exactlyOne writeFile
  split <;> (try split) <;> simp

theorem exactlyOne_headFile (fs : FsEntry) (root : List String) (args : ToolArgs) :
    exactlyOne (headFile fs root args) := by
  unfold exactlyOne headFile
  split <;> (try split) <;> simp

theorem exactlyOne_tailFile (fs : FsEntry) (root : List String) (args : ToolArgs) :
    exactlyOne (tailFile fs root args) := by
  unfold exactlyOne tailFile
  split <;> (try split) <;> simp

theorem exactlyOne_listDir (fs : FsEntry) (root : List String) (args : ToolArgs) :
    exactlyOne (listDir fs root args) := by
  unfold exactlyOne listDir
  split <;> (try split) <;> simp

theorem exactlyOne_runCommand (outcome : ExecOutcome) :
    exactlyOne (runCommand outcome) := by
  unfold exactlyOne runCommand
  split <;> (try split) <;> simp

theorem exactlyOne_editFile (fs : FsEntry) (root : List String) (args : ToolArgs) :
    exactlyOne (editFile fs root args).1 := by
  unfold exactlyOne editFile
  cases hr : resolvePath root args.path with
  | error m => simp
  | ok p =>
    cases hl : lookupFs fs p with
    | none => simp [hl]
    | some e =>
      cases e with
      | dir es => simp [hl]
      | file content =>
        simp only [hl]
        by_cases hin : jsIncludes content args.old_string = false
        · simp [hin]
        · simp only [hin, if_false]
          cases hs : setFile fs p (jsReplaceFirst content args.old_string args.new_string) <;>
            simp [hs]

/-- Every result `executeTool` produces has exactly one of the two
fields set. -/
theorem exactlyOne_executeTool (fs : FsEntry) (root : List String)
    (outcome : ExecOutcome) (name : String) (args : ToolArgs) :
    exactlyOne (executeTool fs root outcome name args).1 := by
  unfold executeTool
  split
  · exact exactlyOne_readFile fs root args
  split
  · exact exactlyOne_writeFile fs root args
  split
  · exact exactlyOne_headFile fs root args
  split
  · exact exactlyOne_tailFile fs root args
  split
  · exact exactlyOne_listDir fs root args
  split
  · exact exactlyOne_runCommand outcome
  split
  · exact exactlyOne_editFile fs root args
  unfold exactlyOne
  simp

/-- C9 counterexample: a successful `run_command` whose stdout is empty
is reported with the substitute sentinel `"(no output)"`, not an
explicit empty-string output — refuting the claim's "not … a substitute
sentinel" clause. -/
theorem empty_output_sentinel_counterexample :
    (executeTool (.dir []) [] (.success "") "run_command" {}).1
        = { output := some "(no output)", error := none }
    ∧ ("(no output)" : String) ≠ "" := by
  constructor
  · rfl
  · decide

/-- C9 amended: every `executeTool` result carries exactly one of
`output` and `error` (never both, never neither); an empty successful
file read is an explicit empty-string output; but `run_command`
substitutes `"(no output)"` and `list_dir` substitutes
`"(empty directory)"` for empty successful output. -/
theorem tool_result_exactly_one :
    (∀ (fs : FsEntry) (root : List String) (outcome : ExecOutcome)
       (name : String) (args : ToolArgs),
        exactlyOne (executeTool fs root outcome name args).1)
    ∧ (executeTool (.dir [("p", .dir [("e.txt", .file "")])]) ["p"] (.success "")
        "read_file" { path := "e.txt" }).1 = { output := some "", error := none }
    ∧ (executeTool (.dir []) [] (.success "") "run_command" {}).1
        = { output := some "(no output)", error := none }
    ∧ (executeTool (.dir [("p", .dir [("d", .dir [])])]) ["p"] (.success "")
        "list_dir" { path := "d" }).1
        = { output := some "(empty directory)", error := none } := by
  refine ⟨exactlyOne_executeTool, rfl, rfl, ?_⟩
  show listDir (.dir [("p", .dir [("d", .dir [])])]) ["p"] { path := "d" }
      = { output := some "(empty directory)", error := none }
  unfold listDir
  simp only [show resolvePath ["p"] ({ path := "d" } : ToolArgs).path
      = Except.ok ["p", "d"] from rfl,
    show lookupFs (.dir [("p", .dir [("d", .dir [])])]) ["p", "d"]
      = some (.dir []) from rfl,
    show listRecEntries [] ({ path := "d" } : ToolArgs).recursive "" = [] from by
      simp [listRecEntries]]
  rfl

/-! ## edit_file (C4) -/

theorem findEntry_updateEntry_self (es : List (String × FsEntry)) (seg : String)
    (e : FsEntry) : findEntry (updateEntry es seg e) seg = some e := by
  induction es with
  | nil => simp [updateEntry, findEntry]
  | cons hd rest ih =>
    obtain ⟨n, e'⟩ := hd
    by_cases hn : n = seg
    · simp [updateEntry, findEntry, hn]
    · simp [updateEntry, findEntry, hn, ih]

/-- Writing to a path at which a file already exists succeeds and the
written content is what a subsequent lookup finds. -/
theorem setFile_of_file (p : List String) (fs : FsEntry) (c c' : String)
    (hne : p ≠ []) (hl : lookupFs fs p = some (.file c)) :
    ∃ fs', setFile fs p c' = some fs' ∧ lookupFs fs' p = some (.file c') := by
  induction p generalizing fs with
  | nil => exact absurd rfl hne
  | cons seg rest ih =>
    cases fs with
    | file _ => simp [lookupFs] at hl
    | dir es =>
      cases hfind : findEntry es seg with
      | none => simp [lookupFs, hfind] at hl
      | some e =>
        simp only [lookupFs, hfind] at hl
        cases rest with
        | nil =>
          simp only [lookupFs, Option.some.injEq] at hl
          subst hl
          refine ⟨.dir (updateEntry es seg (.file c')), ?_, ?_⟩
          · simp [setFile, hfind]
          · simp [lookupFs, findEntry_updateEntry_self]
        | cons seg2 rest2 =>
          obtain ⟨sub', hs, hl'⟩ := ih e (by simp) hl
          refine ⟨.dir (updateEntry es seg sub'), ?_, ?_⟩
          · simp [setFile, hfind, hs]
          · simp [lookupFs, findEntry_updateEntry_self, hl']

/-- A replacement string without `$` is substituted verbatim. -/
theorem getSubstitution_no_dollar (matched before after : List Char) :
    ∀ l : List Char, '$' ∉ l → getSubstitution matched before after l = l := by
  intro l
  induction l with
  | nil => intro _; rfl
  | cons c r ih =>
    intro h
    have hc : c ≠ '$' := by
      intro hc; exact h (by simp [hc])
    have hr : '$' ∉ r := fun hm => h (List.mem_cons_of_mem _ hm)
    cases r with
    | nil => simp [getSubstitution, hc]
    | cons d r2 => simp [getSubstitution, hc, ih hr]

theorem jsReplaceFirst_no_dollar (content old new : String)
    (h : '$' ∉ new.data) :
    jsReplaceFirst content old new = specReplaceFirst content old new := by
  unfold jsReplaceFirst specReplaceFirst
  cases firstMatch content.data old.data with
  | none => rfl
  | some i => simp [getSubstitution_no_dollar _ _ _ _ h]

/-- C4 counterexample: `edit_file` with old `"foo"` and new `"$&$&"` on
`"foobaz"` stores `"foofoobaz"` (JS `String.prototype.replace` expands
`$&` to the matched string), not the literal first-occurrence
replacement `"$&$&baz"` that the claim's "replaces the first occurrence
of the old-string with the new-string" demands. -/
theorem edit_file_dollar_counterexample :
    (editFile (.dir [("p", .dir [("a.txt", .file "foobaz")])]) ["p"]
        { path := "a.txt", old_string := "foo", new_string := "$&$&" }).1
      = { output := some "File edited: a.txt", error := none }
    ∧ lookupFs (editFile (.dir [("p", .dir [("a.txt", .file "foobaz")])]) ["p"]
        { path := "a.txt", old_string := "foo", new_string := "$&$&" }).2
        ["p", "a.txt"] = some (.file "foofoobaz")
    ∧ specReplaceFirst "foobaz" "foo" "$&$&" = "$&$&baz"
    ∧ ("foofoobaz" : String) ≠ "$&$&baz" :=
  ⟨rfl, rfl, rfl, by decide⟩

/-- C4 amended: for every existing file containing the old-string,
`edit_file` confirms the edit and writes back the content with the first
occurrence replaced according to JS replacement semantics; whenever the
new-string contains no `$` this is literal first-occurrence replacement
(in particular old `"foo"` → new `"bar"` on `"foobaz"` stores
`"barbaz"`). -/
theorem edit_file_replaces_first (fs : FsEntry) (root : List String)
    (args : ToolArgs) (p : List String) (content : String)
    (hp : resolvePath root args.path = .ok p)
    (hne : p ≠ [])
    (hl : lookupFs fs p = some (.file content))
    (hin : jsIncludes content args.old_string = true)
    (hnd : '$' ∉ args.new_string.data) :
    (editFile fs root args).1
      = { output := some ("File edited: " ++ args.path), error := none }
    ∧ lookupFs (editFile fs root args).2 p
      = some (.file (specReplaceFirst content args.old_string args.new_string)) := by
  obtain ⟨fs', hs, hl'⟩ := setFile_of_file p fs content
    (specReplaceFirst content args.old_string args.new_string) hne hl
  have hrw := jsReplaceFirst_no_dollar content args.old_string args.new_string hnd
  unfold editFile
  simp only [hp, hl, hin, hrw, hs]
  simp [hl']

theorem edit_file_replaces_first_witness :
    (editFile (.dir [("p", .dir [("a.txt", .file "foobaz")])]) ["p"]
        { path := "a.txt", old_string := "foo", new_string := "bar" }).1
      = { output := some "File edited: a.txt", error := none }
    ∧ lookupFs (editFile (.dir [("p", .dir [("a.txt", .file "foobaz")])]) ["p"]
        { path := "a.txt", old_string := "foo", new_string := "bar" }).2
        ["p", "a.txt"]
      = some (.file (specReplaceFirst "foobaz" "foo" "bar"))
    ∧ specReplaceFirst "foobaz" "foo" "bar" = "barbaz" := by
  have h := edit_file_replaces_first
    (.dir [("p", .dir [("a.txt", .file "foobaz")])]) ["p"]
    { path := "a.txt", old_string := "foo", new_string := "bar" }
    ["p", "a.txt"] "foobaz" rfl (by simp) rfl rfl (by decide)
  exact ⟨h.1, h.2, rfl⟩

/-! ## head_file / tail_file (C5) -/

theorem jsSliceList_zero_take {α : Type} (xs : List α) (n : Int) (hn : 0 ≤ n) :
    jsSliceList xs 0 (some n) = xs.take (min n.toNat xs.length) := by
  unfold jsSliceList
  dsimp only
  rw [if_neg (by omega), if_neg (by omega)]
  have h0 : (min (0 : Int) (xs.length : Int)).toNat = 0 := by omega
  have h1 : (min n (xs.length : Int) - min (0 : Int) (xs.length : Int)).toNat
      = min n.toNat xs.length := by omega
  rw [h0, h1, List.drop_zero]

theorem jsSliceList_neg_drop {α : Type} (xs : List α) (n : Int) (hn : 1 ≤ n) :
    jsSliceList xs (-n) none = xs.drop (xs.length - min n.toNat xs.length) := by
  unfold jsSliceList
  dsimp only
  rw [if_pos (by omega)]
  have hs : (max ((xs.length : Int) + -n) 0).toNat
      = xs.length - min n.toNat xs.length := by omega
  rw [hs]
  refine List.take_of_length_le ?_
  simp only [List.length_drop]
  omega

/-- C5 counterexample: a requested line count of 0 is falsy in JS, so
`Number(args.lines) || 100` silently replaces it with the default 100:
`head_file` on a one-line file with `lines = 0` returns that line, while
the claim's `min(0, 1) = 0` demands the empty join. -/
theorem head_lines_zero_counterexample :
    headFile (.dir [("p", .dir [("a.txt", .file "a")])]) ["p"]
        { path := "a.txt", lines := some 0 }
      = { output := some "a", error := none }
    ∧ (jsSplit "a" '\n').take (min (Int.toNat 0) (jsSplit "a" '\n').length) = []
    ∧ joinWith "\n" ([] : List String) = ""
    ∧ ("a" : String) ≠ "" :=
  ⟨rfl, rfl, rfl, by decide⟩

/-- C5 amended: for every existing file with `k` lines and every
requested count `n ≥ 1`, `head_file` returns the first `min(n,k)` lines
and `tail_file` the last `min(n,k)` lines, rejoined with newlines;
`n ≥ k` returns all lines; an absent count behaves as the default 100
(and so does a requested count of 0, which the `|| 100` fallback treats
as absent). -/
theorem head_tail_min_lines (fs : FsEntry) (root : List String)
    (args : ToolArgs) (p : List String) (content : String) (n : Int)
    (hp : resolvePath root args.path = .ok p)
    (hl : lookupFs fs p = some (.file content))
    (hn : args.lines = some n) (h1 : 1 ≤ n) :
    headFile fs root args
      = { output := some (joinWith "\n"
          ((jsSplit content '\n').take
            (min n.toNat (jsSplit content '\n').length))), error := none }
    ∧ tailFile fs root args
      = { output := some (joinWith "\n"
          ((jsSplit content '\n').drop
            ((jsSplit content '\n').length
              - min n.toNat (jsSplit content '\n').length))), error := none }
    ∧ ((jsSplit content '\n').length ≤ n.toNat →
        headFile fs root args
          = { output := some (joinWith "\n" (jsSplit content '\n')), error := none }
        ∧ tailFile fs root args
          = { output := some (joinWith "\n" (jsSplit content '\n')), error := none })
    ∧ headFile fs root { args with lines := none }
        = headFile fs root { args with lines := some 100 }
    ∧ tailFile fs root { args with lines := none }
        = tailFile fs root { args with lines := some 100 } := by
  have hdef : linesOrDefault args.lines = n := by
    rw [hn]; simp [linesOrDefault]; omega
  have hhead : headFile fs root args
      = { output := some (joinWith "\n"
          ((jsSplit content '\n').take
            (min n.toNat (jsSplit content '\n').length))), error := none } := by
    unfold headFile
    simp only [hp, hl, hdef, jsSliceList_zero_take _ n (by omega)]
  have htail : tailFile fs root args
      = { output := some (joinWith "\n"
          ((jsSplit content '\n').drop
            ((jsSplit content '\n').length
              - min n.toNat (jsSplit content '\n').length))), error := none } := by
    unfold tailFile
    simp only [hp, hl, hdef, jsSliceList_neg_drop _ n h1]
  refine ⟨hhead, htail, ?_, rfl, rfl⟩
  intro hk
  have hmin : min n.toNat (jsSplit content '\n').length
      = (jsSplit content '\n').length := by omega
  constructor
  · rw [hhead, hmin, List.take_length]
  · rw [htail, hmin, Nat.sub_self, List.drop_zero]

theorem head_tail_min_lines_witness :
    headFile (.dir [("p", .dir [("a.txt", .file "l1\nl2\nl3")])]) ["p"]
        { path := "a.txt", lines := some 2 }
      = { output := some (joinWith "\n"
          ((jsSplit "l1\nl2\nl3" '\n').take
            (min (Int.toNat 2) (jsSplit "l1\nl2\nl3" '\n').length))), error := none }
    ∧ tailFile (.dir [("p", .dir [("a.txt", .file "l1\nl2\nl3")])]) ["p"]
        { path := "a.txt", lines := some 2 }
      = { output := some (joinWith "\n"
          ((jsSplit "l1\nl2\nl3" '\n').drop
            ((jsSplit "l1\nl2\nl3" '\n').length
              - min (Int.toNat 2) (jsSplit "l1\nl2\nl3" '\n').length))), error := none }
    ∧ joinWith "\n" ((jsSplit "l1\nl2\nl3" '\n').take
        (min (Int.toNat 2) (jsSplit "l1\nl2\nl3" '\n').length)) = "l1\nl2"
    ∧ joinWith "\n" ((jsSplit "l1\nl2\nl3" '\n').drop
        ((jsSplit "l1\nl2\nl3" '\n').length
          - min (Int.toNat 2) (jsSplit "l1\nl2\nl3" '\n').length)) = "l2\nl3" := by
  have h := head_tail_min_lines (.dir [("p", .dir [("a.txt", .file "l1\nl2\nl3")])])
    ["p"] { path := "a.txt", lines := some 2 } ["p", "a.txt"] "l1\nl2\nl3" 2
    rfl rfl rfl (by omega)
  exact ⟨h.1, h.2.1, rfl, rfl⟩

/-! ## Compaction (C3, C10) -/

/-- Plain turns originally positioned no later than the last tool turn. -/
def plainsUpTo (contents : List Turn) : List Turn :=
  ((contents.enum.filter fun q =>
    !hasToolCall q.2 && !decide (lastToolIdx contents < q.1)).map Prod.snd)

/-- Plain turns originally positioned after the last tool turn. -/
def plainsAfter (contents : List Turn) : List Turn :=
  ((contents.enum.filter fun q =>
    !hasToolCall q.2 && decide (lastToolIdx contents < q.1)).map Prod.snd)

def plainTurns (contents : List Turn) : List Turn :=
  contents.filter fun t => !hasToolCall t

theorem spliceSummary_added (L : Nat) (st : Turn) :
    ∀ pairs : List (Nat × Turn),
      spliceSummary L st pairs true
        = (pairs.filter fun q => !hasToolCall q.2).map Prod.snd := by
  intro pairs
  induction pairs with
  | nil => rfl
  | cons q rest ih =>
    obtain ⟨i, t⟩ := q
    cases ht : hasToolCall t <;> simp [spliceSummary, ht, ih]

theorem enum_filter_map_snd (p : Turn → Bool) :
    ∀ (l : List Turn) (k : Nat),
      ((List.enumFrom k l).filter fun q => p q.2).map Prod.snd = l.filter p := by
  intro l
  induction l with
  | nil => intro k; rfl
  | cons t rest ih =>
    intro k
    cases hp : p t <;> simp [List.enumFrom_cons, hp, ih (k + 1)]

theorem enum_filter_le_nil (L : Nat) (p : Turn → Bool) :
    ∀ (l : List Turn) (k : Nat), L < k →
      (List.enumFrom k l).filter (fun q => p q.2 && !decide (L < q.1)) = [] := by
  intro l
  induction l with
  | nil => intro k _; rfl
  | cons t rest ih =>
    intro k hk
    have hd : decide (L < k) = true := decide_eq_true hk
    simp only [List.enumFrom_cons, List.filter_cons, hd, Bool.not_true,
      Bool.and_false, Bool.false_eq_true, if_false]
    exact ih (k + 1) (by omega)

theorem enum_filter_gt_eq (L : Nat) (p : Turn → Bool) :
    ∀ (l : List Turn) (k : Nat), L < k →
      (List.enumFrom k l).filter (fun q => p q.2 && decide (L < q.1))
        = (List.enumFrom k l).filter (fun q => p q.2) := by
  intro l
  induction l with
  | nil => intro k _; rfl
  | cons t rest ih =>
    intro k hk
    have hd : decide (L < k) = true := decide_eq_true hk
    simp only [List.enumFrom_cons, List.filter_cons, hd, Bool.and_true]
    rw [ih (k + 1) (by omega)]

theorem enum_filter_idx_partition (L : Nat) (p : Turn → Bool) :
    ∀ (l : List Turn) (k : Nat),
      ((List.enumFrom k l).filter (fun q => p q.2 && !decide (L < q.1))).map Prod.snd
        ++ ((List.enumFrom k l).filter (fun q => p q.2 && decide (L < q.1))).map Prod.snd
      = l.filter p := by
  intro l
  induction l with
  | nil => intro k; rfl
  | cons t rest ih =>
    intro k
    by_cases hk : L < k
    · rw [enum_filter_le_nil L p (t :: rest) k hk,
        enum_filter_gt_eq L p (t :: rest) k hk]
      simpa using enum_filter_map_snd p (t :: rest) k
    · have hd : decide (L < k) = false := decide_eq_false hk
      simp only [List.enumFrom_cons, List.filter_cons, hd, Bool.not_false,
        Bool.and_true, Bool.and_false, Bool.false_eq_true, if_false]
      cases hp : p t
      · simp only [Bool.false_eq_true, if_false]
        exact ih (k + 1)
      · simp only [if_true, List.map_cons, List.cons_append]
        rw [ih (k + 1)]

theorem spliceSummary_characterize (L : Nat) (st : Turn) :
    ∀ (l : List Turn) (k : Nat),
      spliceSummary L st (List.enumFrom k l) false
        = ((List.enumFrom k l).filter fun q =>
            !hasToolCall q.2 && !decide (L < q.1)).map Prod.snd
          ++ st :: ((List.enumFrom k l).filter fun q =>
            !hasToolCall q.2 && decide (L < q.1)).map Prod.snd := by
  intro l
  induction l with
  | nil => intro k; rfl
  | cons t rest ih =>
    intro k
    simp only [List.enumFrom_cons]
    cases ht : hasToolCall t with
    | true =>
      simp only [spliceSummary, ht, List.filter_cons, Bool.not_true,
        Bool.false_and, Bool.false_eq_true, if_false, if_true]
      exact ih (k + 1)
    | false =>
      by_cases hk : L < k
      · have hd : decide (L < k) = true := decide_eq_true hk
        have h1 := spliceSummary_added L st (List.enumFrom (k + 1) rest)
        have h2 := enum_filter_le_nil L (fun t => !hasToolCall t) rest (k + 1) (by omega)
        have h3 := enum_filter_gt_eq L (fun t => !hasToolCall t) rest (k + 1) (by omega)
        have h4 := enum_filter_map_snd (fun t => !hasToolCall t) rest (k + 1)
        simp only [spliceSummary, ht, hd, List.filter_cons, Bool.not_false,
          Bool.true_and, Bool.not_true, Bool.and_false, Bool.and_true,
          Bool.false_eq_true, if_false, if_true]
        simp only [h1, h2, h3, h4]
        simp [h4]
      · have hd : decide (L < k) = false := decide_eq_false hk
        simp only [spliceSummary, ht, hd, List.filter_cons, Bool.not_false,
          Bool.true_and, Bool.and_false, Bool.and_true, Bool.not_true,
          Bool.false_eq_true, if_false, if_true]
        rw [ih (k + 1)]
        simp

/-- When compaction fires, the rebuilt conversation is exactly: the
plain turns up to the last tool turn, then the synthetic summary turn,
then the plain turns after the last tool turn. -/
theorem summarizeToolCalls_fires (contents : List Turn) (respText : Option String)
    (h4 : 4 ≤ toolTurnCount contents) :
    summarizeToolCalls contents respText
      = plainsUpTo contents ++ summaryTurn respText :: plainsAfter contents := by
  unfold summarizeToolCalls
  rw [if_neg (by omega)]
  show spliceSummary (lastToolIdx contents) (summaryTurn respText)
      (List.enumFrom 0 contents) false = _
  rw [spliceSummary_characterize]
  rfl

theorem length_filter_partition (p : Turn → Bool) :
    ∀ l : List Turn,
      (l.filter p).length + (l.filter fun a => !p a).length = l.length := by
  intro l
  induction l with
  | nil => rfl
  | cons t rest ih =>
    cases hp : p t <;> simp [List.filter_cons, hp] <;> omega

theorem le_getLast_of_pairwise :
    ∀ ns : List Nat, List.Pairwise (· < ·) ns →
      ∀ x ∈ ns, x ≤ ns.getLast?.getD 0 := by
  intro ns
  induction ns with
  | nil => intro _ x hx; simp at hx
  | cons a rest ih =>
    intro h x hx
    cases rest with
    | nil =>
      simp only [List.mem_singleton] at hx
      simp [hx]
    | cons b rest2 =>
      have htail := (List.pairwise_cons.mp h).2
      have hlast : (a :: b :: rest2).getLast? = (b :: rest2).getLast? := rfl
      rcases List.mem_cons.mp hx with rfl | hx2
      · have hab : x < b := (List.pairwise_cons.mp h).1 b (by simp)
        have hb := ih htail b (by simp)
        rw [hlast]
        omega
      · have := ih htail x hx2
        rw [hlast]
        exact this

/-- Every tool-turn index is at most `lastToolIdx` (the splice point is
after the chronologically last tool turn). -/
theorem toolIdx_le_lastToolIdx (contents : List Turn) :
    ∀ q ∈ contents.enum, hasToolCall q.2 = true → q.1 ≤ lastToolIdx contents := by
  intro q hq htool
  have hfst : contents.enum.map Prod.fst = List.range' 0 contents.length :=
    List.enumFrom_map_fst 0 contents
  have hsub : List.Sublist (toolIdxList contents) (List.range' 0 contents.length) := by
    rw [← hfst]
    exact (List.filter_sublist contents.enum).map Prod.fst
  have hpw : List.Pairwise (· < ·) (toolIdxList contents) :=
    List.Pairwise.sublist hsub (List.pairwise_lt_range' 0 contents.length)
  have hmem : q.1 ∈ toolIdxList contents :=
    List.mem_map_of_mem Prod.fst (List.mem_filter.mpr ⟨hq, htool⟩)
  exact le_getLast_of_pairwise _ hpw q.1 hmem

/-- C3: when compaction fires (at least 4 tool turns), the result keeps
every plain turn unchanged and in order, contains the single synthetic
summary turn spliced immediately after the position of the last original
tool turn, and is strictly shorter than the input; with fewer than 4
tool turns the conversation is returned unchanged. -/
theorem compaction_safety (contents : List Turn) (respText : Option String) :
    (4 ≤ toolTurnCount contents →
      summarizeToolCalls contents respText
        = plainsUpTo contents ++ summaryTurn respText :: plainsAfter contents
      ∧ plainsUpTo contents ++ plainsAfter contents = plainTurns contents
      ∧ (summarizeToolCalls contents respText).length
          = (plainTurns contents).length + 1
      ∧ (summarizeToolCalls contents respText).length < contents.length
      ∧ (∀ q ∈ contents.enum, hasToolCall q.2 = true → q.1 ≤ lastToolIdx contents))
    ∧ (toolTurnCount contents < 4 →
        summarizeToolCalls contents respText = contents) := by
  constructor
  · intro h4
    have hchar := summarizeToolCalls_fires contents respText h4
    have hpart : plainsUpTo contents ++ plainsAfter contents = plainTurns contents := by
      show ((List.enumFrom 0 contents).filter _).map Prod.snd
          ++ ((List.enumFrom 0 contents).filter _).map Prod.snd = _
      exact enum_filter_idx_partition (lastToolIdx contents)
        (fun t => !hasToolCall t) contents 0
    have hlenpart : (plainsUpTo contents).length + (plainsAfter contents).length
        = (plainTurns contents).length := by
      rw [← hpart, List.length_append]
    have hlen : (summarizeToolCalls contents respText).length
        = (plainTurns contents).length + 1 := by
      rw [hchar]
      simp only [List.length_append, List.length_cons]
      omega
    have htotal : toolTurnCount contents + (plainTurns contents).length
        = contents.length := length_filter_partition (fun t => hasToolCall t) contents
    refine ⟨hchar, hpart, hlen, by omega, toolIdx_le_lastToolIdx contents⟩
  · intro hlt
    unfold summarizeToolCalls
    rw [if_pos hlt]

theorem compaction_safety_witness :
    4 ≤ toolTurnCount
      [⟨"user", [{ text := some "hi" }]⟩,
       ⟨"user", [{ functionResponse := some ⟨"read_file", .resultPayload (some "x")⟩ }]⟩,
       ⟨"user", [{ functionResponse := some ⟨"read_file", .resultPayload (some "x")⟩ }]⟩,
       ⟨"user", [{ functionResponse := some ⟨"read_file", .resultPayload (some "x")⟩ }]⟩,
       ⟨"user", [{ functionResponse := some ⟨"read_file", .resultPayload (some "x")⟩ }]⟩,
       ⟨"user", [{ text := some "bye" }]⟩]
    ∧ (summarizeToolCalls
        [⟨"user", [{ text := some "hi" }]⟩,
         ⟨"user", [{ functionResponse := some ⟨"read_file", .resultPayload (some "x")⟩ }]⟩,
         ⟨"user", [{ functionResponse := some ⟨"read_file", .resultPayload (some "x")⟩ }]⟩,
         ⟨"user", [{ functionResponse := some ⟨"read_file", .resultPayload (some "x")⟩ }]⟩,
         ⟨"user", [{ functionResponse := some ⟨"read_file", .resultPayload (some "x")⟩ }]⟩,
         ⟨"user", [{ text := some "bye" }]⟩] (some "S")).length
        < ([⟨"user", [{ text := some "hi" }]⟩,
         ⟨"user", [{ functionResponse := some ⟨"read_file", .resultPayload (some "x")⟩ }]⟩,
         ⟨"user", [{ functionResponse := some ⟨"read_file", .resultPayload (some "x")⟩ }]⟩,
         ⟨"user", [{ functionResponse := some ⟨"read_file", .resultPayload (some "x")⟩ }]⟩,
         ⟨"user", [{ functionResponse := some ⟨"read_file", .resultPayload (some "x")⟩ }]⟩,
         ⟨"user", [{ text := some "bye" }]⟩] : List Turn).length
    ∧ toolTurnCount [(⟨"user", [{ text := some "hi" }]⟩ : Turn)] < 4
    ∧ summarizeToolCalls [(⟨"user", [{ text := some "hi" }]⟩ : Turn)] (some "S")
        = [⟨"user", [{ text := some "hi" }]⟩] := by
  refine ⟨by decide, ?_, by decide, ?_⟩
  · exact ((compaction_safety _ (some "S")).1 (by decide)).2.2.2.1
  · exact (compaction_safety _ (some "S")).2 (by decide)

/-- C10: a turn is classified as a tool turn exactly when some part of
it is an action request or an action result; when compaction fires,
every such turn — including turns that also carry plain text parts — is
removed from the conversation in its entirety. -/
theorem mixed_turns_dropped (contents : List Turn) (respText : Option String) :
    (∀ t : Turn, hasToolCall t = true
      ↔ ∃ p ∈ t.parts, p.functionCall.isSome ∨ p.functionResponse.isSome)
    ∧ (4 ≤ toolTurnCount contents →
        ∀ t ∈ contents, hasToolCall t = true →
          t ∉ summarizeToolCalls contents respText) := by
  constructor
  · intro t
    simp [hasToolCall, List.any_eq_true]
  · intro h4 t _ htool hmem
    rw [summarizeToolCalls_fires contents respText h4] at hmem
    have hst : hasToolCall (summaryTurn respText) = false := rfl
    rcases List.mem_append.mp hmem with hA | hB
    · obtain ⟨q, hq, hq2⟩ := List.mem_map.mp hA
      have := (List.mem_filter.mp hq).2
      rw [hq2, htool] at this
      simp at this
    · rcases List.mem_cons.mp hB with rfl | hB2
      · rw [htool] at hst; cases hst
      · obtain ⟨q, hq, hq2⟩ := List.mem_map.mp hB2
        have := (List.mem_filter.mp hq).2
        rw [hq2, htool] at this
        simp at this

theorem mixed_turns_dropped_witness :
    4 ≤ toolTurnCount
      [⟨"model", [⟨some "note", some ⟨some "read_file", {}⟩, none⟩]⟩,
       ⟨"user", [{ functionResponse := some ⟨"read_file", .resultPayload (some "x")⟩ }]⟩,
       ⟨"user", [{ functionResponse := some ⟨"read_file", .resultPayload (some "x")⟩ }]⟩,
       ⟨"user", [{ functionResponse := some ⟨"read_file", .resultPayload (some "x")⟩ }]⟩]
    ∧ hasToolCall (⟨"model", [⟨some "note", some ⟨some "read_file", {}⟩, none⟩]⟩ : Turn) = true
    ∧ (⟨"model", [⟨some "note", some ⟨some "read_file", {}⟩, none⟩]⟩ : Turn)
        ∉ summarizeToolCalls
          [⟨"model", [⟨some "note", some ⟨some "read_file", {}⟩, none⟩]⟩,
           ⟨"user", [{ functionResponse := some ⟨"read_file", .resultPayload (some "x")⟩ }]⟩,
           ⟨"user", [{ functionResponse := some ⟨"read_file", .resultPayload (some "x")⟩ }]⟩,
           ⟨"user", [{ functionResponse := some ⟨"read_file", .resultPayload (some "x")⟩ }]⟩]
          none := by
  refine ⟨by decide, by decide, ?_⟩
  exact (mixed_turns_dropped _ none).2 (by decide) _ (by simp) (by decide)

/-! ## Permission gate (C6, C7) -/

theorem lookupPerm_setPermission (s : List (String × PermMode)) (k' : String)
    (m : PermMode) (k : String) :
    lookupPerm (setPermission s k' m) k
      = if k' = k then some m else lookupPerm s k := by
  induction s with
  | nil =>
    by_cases h : k' = k <;> simp [setPermission, lookupPerm, h]
  | cons hd rest ih =>
    obtain ⟨k0, m0⟩ := hd
    by_cases h0 : k0 = k'
    · subst h0
      by_cases hk : k0 = k
      · simp [setPermission, lookupPerm, hk]
      · simp [setPermission, lookupPerm, hk]
    · by_cases hk : k0 = k
      · have hne : ¬ k' = k := by
          intro he; exact h0 (by rw [he, hk])
        have hne2 : ¬ k = k' := fun he => hne he.symm
        simp [setPermission, lookupPerm, h0, hk, hne, hne2]
      · simp [setPermission, lookupPerm, h0, hk, ih]

theorem isAllowed_setPermission_allow (s : List (String × PermMode))
    (k' k : String) (h : isAllowed s k = true) :
    isAllowed (setPermission s k' PermMode.allow) k = true := by
  unfold isAllowed at h ⊢
  rw [lookupPerm_setPermission]
  by_cases hk : k' = k
  · simp [hk]
  · simp only [hk, if_false]
    exact h

theorem dispatchExec_settings (root : List String) (o : Oracles) (s : LoopState)
    (toolName : String) (args : ToolArgs) (key description : String)
    (prompted : Bool) :
    (dispatchExec root o s toolName args key description prompted).1.settings
      = s.settings := rfl

theorem dispatchExec_info (root : List String) (o : Oracles) (s : LoopState)
    (toolName : String) (args : ToolArgs) (key description : String)
    (prompted : Bool) :
    (dispatchExec root o s toolName args key description prompted).2.key = key
    ∧ (dispatchExec root o s toolName args key description prompted).2.prompted
        = prompted
    ∧ (dispatchExec root o s toolName args key description prompted).2.executed
        = true :=
  ⟨rfl, rfl, rfl⟩

/-- Whatever one dispatch does to the store, it never revokes an
`allow`: the only write is `setPermission … allow`. -/
theorem dispatchOne_preserves_allow (root : List String) (o : Oracles)
    (s : LoopState) (fc : FunctionCall) (k : String)
    (h : isAllowed s.settings k = true) :
    isAllowed ((dispatchOne root o s fc).1).settings k = true := by
  unfold dispatchOne
  by_cases hp : isAllowed s.settings (permKeyOf (fc.name.getD "unknown")) = true
  · simp only [hp, if_true]
    rw [dispatchExec_settings]
    exact h
  · simp only [hp, Bool.false_eq_true, if_false]
    by_cases hg : (o.prompt s.prompts).granted = true
    · by_cases ha : (o.prompt s.prompts).alwaysAllow = true
      · simp only [hg, ha, Bool.and_self, if_true, if_pos rfl]
        rw [dispatchExec_settings]
        exact isAllowed_setPermission_allow _ _ _ h
      · simp only [hg, ha, Bool.and_false, Bool.false_eq_true, if_false, if_true]
        rw [dispatchExec_settings]
        exact h
    · simp only [hg, Bool.false_and, Bool.false_eq_true, if_false]
      exact h

/-- If the store already allows the call's capability class, the
decision callback is not consulted and the executor runs. -/
theorem dispatchOne_allowed (root : List String) (o : Oracles) (s : LoopState)
    (fc : FunctionCall)
    (h : isAllowed s.settings (permKeyOf (fc.name.getD "unknown")) = true) :
    (dispatchOne root o s fc).2.prompted = false
    ∧ (dispatchOne root o s fc).2.executed = true
    ∧ (dispatchOne root o s fc).1.prompts = s.prompts := by
  unfold dispatchOne
  simp only [h, if_true]
  exact ⟨rfl, rfl, rfl⟩

theorem dispatchOne_key (root : List String) (o : Oracles) (s : LoopState)
    (fc : FunctionCall) :
    (dispatchOne root o s fc).2.key = permKeyOf (fc.name.getD "unknown") := by
  unfold dispatchOne
  by_cases hp : isAllowed s.settings (permKeyOf (fc.name.getD "unknown")) = true
  · simp [hp, dispatchExec]
  · simp only [hp, Bool.false_eq_true, if_false]
    by_cases hg : (o.prompt s.prompts).granted = true <;> simp [hg, dispatchExec]

/-- C6: once a capability class is `allow` in the store, it stays
`allow` across any batch of dispatches, and every dispatched action of
that class executes without the decision callback being invoked. -/
theorem permission_allow_monotonic (root : List String) (o : Oracles) :
    ∀ (calls : List FunctionCall) (s : LoopState) (k : String),
      isAllowed s.settings k = true →
      isAllowed ((dispatchAll root o s calls).1).settings k = true
      ∧ (∀ info ∈ (dispatchAll root o s calls).2,
          info.key = k → info.prompted = false ∧ info.executed = true) := by
  intro calls
  induction calls with
  | nil =>
    intro s k h
    exact ⟨h, by simp [dispatchAll]⟩
  | cons fc rest ih =>
    intro s k h
    have hpres := dispatchOne_preserves_allow root o s fc k h
    obtain ⟨h1, h2⟩ := ih (dispatchOne root o s fc).1 k hpres
    refine ⟨h1, ?_⟩
    intro info hinfo hkey
    simp only [dispatchAll, List.mem_cons] at hinfo
    rcases hinfo with rfl | htail
    · have hk2 : isAllowed s.settings (permKeyOf (fc.name.getD "unknown")) = true := by
        rw [← dispatchOne_key root o s fc, hkey]
        exact h
      have := dispatchOne_allowed root o s fc hk2
      exact ⟨this.1, this.2.1⟩
    · exact h2 info htail hkey

theorem permission_allow_monotonic_witness :
    isAllowed [("read_file", PermMode.allow)] "read_file" = true
    ∧ isAllowed ((dispatchAll []
        ⟨fun _ => {}, fun _ => none, fun _ => ⟨false, false⟩, fun _ => .success ""⟩
        ⟨.dir [], [("read_file", PermMode.allow)], [], [], 0, 0, 0, 0⟩
        [{ name := some "read_file" }, { name := some "head_file" }]).1).settings
        "read_file" = true
    ∧ (∀ info ∈ (dispatchAll []
        ⟨fun _ => {}, fun _ => none, fun _ => ⟨false, false⟩, fun _ => .success ""⟩
        ⟨.dir [], [("read_file", PermMode.allow)], [], [], 0, 0, 0, 0⟩
        [{ name := some "read_file" }, { name := some "head_file" }]).2,
        info.key = "read_file" → info.prompted = false ∧ info.executed = true) := by
  refine ⟨by decide, ?_⟩
  exact permission_allow_monotonic []
    ⟨fun _ => {}, fun _ => none, fun _ => ⟨false, false⟩, fun _ => .success ""⟩
    [{ name := some "read_file" }, { name := some "head_file" }]
    ⟨.dir [], [("read_file", PermMode.allow)], [], [], 0, 0, 0, 0⟩
    "read_file" (by decide)

/-- C7: a requested action whose permission decision is not granted is
not executed — the executor is never invoked, the filesystem is
untouched — and the synthetic "Permission denied by user" result turn is
appended to both the conversation and the history; an absent permission
record behaves as Ask (the callback is consulted). -/
theorem permission_denied_synthesized (root : List String) (o : Oracles)
    (s : LoopState) (fc : FunctionCall)
    (hask : isAllowed s.settings (permKeyOf (fc.name.getD "unknown")) = false)
    (hden : (o.prompt s.prompts).granted = false) :
    (dispatchOne root o s fc).2.prompted = true
    ∧ (dispatchOne root o s fc).2.executed = false
    ∧ (dispatchOne root o s fc).2.appended = denialTurn (fc.name.getD "unknown")
    ∧ (dispatchOne root o s fc).1.fs = s.fs
    ∧ (dispatchOne root o s fc).1.execs = s.execs
    ∧ (dispatchOne root o s fc).1.current
        = s.current ++ [denialTurn (fc.name.getD "unknown")]
    ∧ (dispatchOne root o s fc).1.history
        = s.history ++ [denialTurn (fc.name.getD "unknown")]
    ∧ (∀ (settings : List (String × PermMode)) (k : String),
        lookupPerm settings k = none → isAllowed settings k = false) := by
  have hmain : dispatchOne root o s fc
      = ({ s with prompts := s.prompts + 1,
                  history := s.history ++ [denialTurn (fc.name.getD "unknown")],
                  current := s.current ++ [denialTurn (fc.name.getD "unknown")] },
         { key := permKeyOf (fc.name.getD "unknown"),
           description := getToolDescription (fc.name.getD "unknown") fc.args,
           prompted := true, executed := false,
           appended := denialTurn (fc.name.getD "unknown") }) := by
    unfold dispatchOne
    simp only [hask, Bool.false_eq_true, if_false, hden, Bool.false_and]
  rw [hmain]
  refine ⟨rfl, rfl, rfl, rfl, rfl, rfl, rfl, ?_⟩
  intro settings k h
  simp [isAllowed, h]

theorem permission_denied_synthesized_witness :
    isAllowed [] (permKeyOf ((some "read_file").getD "unknown")) = false
    ∧ ((⟨fun _ => {}, fun _ => none, fun _ => ⟨false, false⟩,
          fun _ => .success ""⟩ : Oracles).prompt 0).granted = false
    ∧ (dispatchOne []
        ⟨fun _ => {}, fun _ => none, fun _ => ⟨false, false⟩, fun _ => .success ""⟩
        ⟨.dir [], [], [], [], 0, 0, 0, 0⟩ { name := some "read_file" }).2.executed
        = false
    ∧ (dispatchOne []
        ⟨fun _ => {}, fun _ => none, fun _ => ⟨false, false⟩, fun _ => .success ""⟩
        ⟨.dir [], [], [], [], 0, 0, 0, 0⟩ { name := some "read_file" }).2.prompted
        = true
    ∧ (dispatchOne []
        ⟨fun _ => {}, fun _ => none, fun _ => ⟨false, false⟩, fun _ => .success ""⟩
        ⟨.dir [], [], [], [], 0, 0, 0, 0⟩ { name := some "read_file" }).1.fs
        = FsEntry.dir [] := by
  have h := permission_denied_synthesized []
    ⟨fun _ => {}, fun _ => none, fun _ => ⟨false, false⟩, fun _ => .success ""⟩
    ⟨.dir [], [], [], [], 0, 0, 0, 0⟩ { name := some "read_file" }
    (by decide) rfl
  exact ⟨by decide, rfl, h.2.1, h.1, h.2.2.2.1⟩

/-! ## Rate-limit retry (C8) -/

theorem retryAux_all_rate (calls : Nat → CallOutcome) :
    ∀ (n a : Nat),
      (∀ i, i < n → ∃ e, calls (a + i) = .raised e ∧ isRateLimit e = true) →
      retryAux calls a n
        = (match calls (a + n) with
           | .ok r => (.ok r, n + 1, List.replicate n 60000)
           | .raised e => (.error e, n + 1, List.replicate n 60000)) := by
  intro n
  induction n with
  | zero =>
    intro a _
    simp only [Nat.add_zero, retryAux]
    cases calls a <;> rfl
  | succ m ih =>
    intro a h
    obtain ⟨e0, he0, hrl0⟩ := h 0 (by omega)
    rw [Nat.add_zero] at he0
    have hshift : ∀ i, i < m → ∃ e, calls (a + 1 + i) = .raised e ∧ isRateLimit e = true := by
      intro i hi
      have := h (i + 1) (by omega)
      simpa [Nat.add_assoc, Nat.add_comm 1 i] using this
    have hrec := ih (a + 1) hshift
    simp only [retryAux, he0, hrl0, if_true, hrec]
    have harg : a + 1 + m = a + (m + 1) := by omega
    rw [harg]
    cases calls (a + (m + 1)) <;> simp [List.replicate_succ]

/-- C8: errors the retry wrapper recognises as rate limiting are retried
with the fixed 60 s backoff up to the retry cap (three guarded attempts,
then one final unguarded call) and only then escalate; any error not
recognised as rate limiting propagates immediately after a single call,
with no retry and no backoff sleep. -/
theorem rate_limit_retry_policy (calls : Nat → CallOutcome) :
    (∀ e, calls 0 = .raised e → isRateLimit e = false →
      generateContentWithRetry calls = (.error e, 1, []))
    ∧ ((∀ i, i < 3 → ∃ e, calls i = .raised e ∧ isRateLimit e = true) →
        (∀ e, calls 3 = .raised e →
          generateContentWithRetry calls
            = (.error e, 4, List.replicate 3 60000))
        ∧ (∀ r, calls 3 = .ok r →
          generateContentWithRetry calls
            = (.ok r, 4, List.replicate 3 60000))) := by
  constructor
  · intro e h0 hrl
    show retryAux calls 0 3 = (.error e, 1, [])
    simp only [retryAux, h0, hrl, Bool.false_eq_true, if_false]
  · intro hall
    have h := retryAux_all_rate calls 3 0 (by simpa using hall)
    rw [Nat.zero_add] at h
    constructor
    · intro e h3
      show retryAux calls 0 3 = _
      rw [h, h3]
    · intro r h3
      show retryAux calls 0 3 = _
      rw [h, h3]

theorem rate_limit_retry_policy_witness :
    ((fun _ => CallOutcome.raised { message := "boom" }) 0
        = CallOutcome.raised { message := "boom" })
    ∧ isRateLimit { message := "boom" } = false
    ∧ generateContentWithRetry (fun _ => CallOutcome.raised { message := "boom" })
        = (.error { message := "boom" }, 1, [])
    ∧ generateContentWithRetry
        (fun _ => CallOutcome.raised { status := some 429, message := "rl" })
        = (.error { status := some 429, message := "rl" }, 4,
           List.replicate 3 60000) := by
  refine ⟨rfl, by decide, ?_, ?_⟩
  · exact (rate_limit_retry_policy
      (fun _ => CallOutcome.raised { message := "boom" })).1
      { message := "boom" } rfl (by decide)
  · exact ((rate_limit_retry_policy
      (fun _ => CallOutcome.raised { status := some 429, message := "rl" })).2
      (fun i _ => ⟨{ status := some 429, message := "rl" }, rfl, by decide⟩)).1
      { status := some 429, message := "rl" } rfl

/-! ## Hop bound (C2) -/

theorem contextStep_genCalls (o : Oracles) (s : LoopState) :
    (contextStep o s).genCalls = s.genCalls := by
  unfold contextStep
  split <;> rfl

theorem appendModelContent_genCalls (s : LoopState) (resp : ModelResponse) :
    (appendModelContent s resp).genCalls = s.genCalls := by
  unfold appendModelContent
  split <;> rfl

theorem dispatchExec_genCalls (root : List String) (o : Oracles) (s : LoopState)
    (toolName : String) (args : ToolArgs) (key description : String)
    (prompted : Bool) :
    (dispatchExec root o s toolName args key description prompted).1.genCalls
      = s.genCalls := rfl

theorem dispatchOne_genCalls (root : List String) (o : Oracles) (s : LoopState)
    (fc : FunctionCall) :
    (dispatchOne root o s fc).1.genCalls = s.genCalls := by
  unfold dispatchOne
  by_cases hp : isAllowed s.settings (permKeyOf (fc.name.getD "unknown")) = true
  · simp [hp, dispatchExec]
  · simp only [hp, Bool.false_eq_true, if_false]
    by_cases hg : (o.prompt s.prompts).granted = true
    · by_cases ha : (o.prompt s.prompts).alwaysAllow = true <;>
        simp [hg, ha, dispatchExec]
    · simp [hg]

theorem dispatchAll_genCalls (root : List String) (o : Oracles) :
    ∀ (calls : List FunctionCall) (s : LoopState),
      (dispatchAll root o s calls).1.genCalls = s.genCalls := by
  intro calls
  induction calls with
  | nil => intro s; rfl
  | cons fc rest ih =>
    intro s
    simp only [dispatchAll]
    rw [ih, dispatchOne_genCalls]

theorem agenticLoopFuel_exhausts (root : List String) (o : Oracles)
    (h : ∀ i, (o.gen i).functionCalls ≠ []) :
    ∀ (fuel : Nat) (s : LoopState),
      (agenticLoopFuel root o fuel s).1
        = "Maximum iterations reached. Please try a more specific request."
      ∧ (agenticLoopFuel root o fuel s).2.genCalls = s.genCalls + fuel := by
  intro fuel
  induction fuel with
  | zero => intro s; exact ⟨rfl, rfl⟩
  | succ n ih =>
    intro s
    have hne : (o.gen (contextStep o s).genCalls).functionCalls.isEmpty = false := by
      have := h ((contextStep o s).genCalls)
      simpa [List.isEmpty_iff] using this
    simp only [agenticLoopFuel, hne, Bool.false_eq_true, if_false]
    set s4 := (dispatchAll root o
      (appendModelContent
        { contextStep o s with genCalls := (contextStep o s).genCalls + 1 }
        (o.gen (contextStep o s).genCalls))
      (o.gen (contextStep o s).genCalls).functionCalls).1 with hs4
    have hgen : s4.genCalls = s.genCalls + 1 := by
      rw [hs4, dispatchAll_genCalls, appendModelContent_genCalls]
      simp [contextStep_genCalls]
    obtain ⟨ha, hb⟩ := ih s4
    refine ⟨ha, ?_⟩
    rw [hb, hgen]
    omega

/-- C2: for every sequence of completion responses each requesting at
least one action, the agentic loop terminates after exactly `MAX_HOPS`
(25) hop-counted completion calls and returns the fixed exhaustion
message. -/
theorem hop_bound (root : List String) (o : Oracles) (s : LoopState)
    (h : ∀ i, (o.gen i).functionCalls ≠ []) :
    (agenticLoop root o s).1
      = "Maximum iterations reached. Please try a more specific request."
    ∧ (agenticLoop root o s).2.genCalls = s.genCalls + MAX_HOPS
    ∧ MAX_HOPS = 25 :=
  ⟨(agenticLoopFuel_exhausts root o h MAX_HOPS s).1,
   (agenticLoopFuel_exhausts root o h MAX_HOPS s).2, rfl⟩

theorem hop_bound_witness :
    (agenticLoop []
      ⟨fun _ => { functionCalls := [{ name := some "read_file" }] },
       fun _ => none, fun _ => ⟨false, false⟩, fun _ => .success ""⟩
      ⟨.dir [], [], [], [], 0, 0, 0, 0⟩).1
      = "Maximum iterations reached. Please try a more specific request."
    ∧ (agenticLoop []
      ⟨fun _ => { functionCalls := [{ name := some "read_file" }] },
       fun _ => none, fun _ => ⟨false, false⟩, fun _ => .success ""⟩
      ⟨.dir [], [], [], [], 0, 0, 0, 0⟩).2.genCalls = 0 + MAX_HOPS
    ∧ MAX_HOPS = 25 :=
  hop_bound []
    ⟨fun _ => { functionCalls := [{ name := some "read_file" }] },
     fun _ => none, fun _ => ⟨false, false⟩, fun _ => .success ""⟩
    ⟨.dir [], [], [], [], 0, 0, 0, 0⟩
    (fun i => by simp)

end GeminiAgent
